import Mathlib

/-!
Verification of the CS2 demo analyzer's event-aggregation and rating engine
(`backend/parser.py`, `backend/rating.py`), shallowly embedded in Lean.

Event tables are lists of records; pandas group-by aggregations become
filter/length/sum over those lists; quantities are rationals (`ℚ`), except the
ELO rating module, which uses `10 ** x` with a real exponent and is therefore
embedded over `ℝ`.  A float division by zero (which yields `inf`/`NaN` in the
Python) is modelled as `Option.none`.
-/

/-- A `player_death` event row, after `_assign_rounds_to_kills` has added the
`round` column (`parse_demo` always adds it on success). -/
structure KillEvent where
  tick : ℤ
  attacker_name : String
  user_name : String
  assister_name : Option String
  weapon : String
  headshot : Bool
  round : ℕ
deriving DecidableEq, Repr

/-- A `player_hurt` event row (the fields `get_player_statistics` reads). -/
structure DamageEvent where
  tick : ℤ
  attacker_name : String
  dmg_health : ℚ
deriving DecidableEq, Repr

/-- A `round_end` event row. -/
structure RoundEndEvent where
  tick : ℤ
  winner : String
deriving DecidableEq, Repr

/-- Kill rows whose `attacker_name` is `p` (one pandas `groupby('attacker_name')`
group). -/
def killsBy (ks : List KillEvent) (p : String) : List KillEvent :=
  ks.filter (fun k => k.attacker_name = p)

/-- `kills` column: row count of the attacker group. -/
def countKills (ks : List KillEvent) (p : String) : ℕ :=
  (killsBy ks p).length

/-- `headshots` column: sum of the boolean `headshot` flags of the attacker
group, i.e. the number of headshot kills. -/
def countHeadshots (ks : List KillEvent) (p : String) : ℕ :=
  ((killsBy ks p).filter (fun k => k.headshot)).length

/-- `deaths` column: `groupby('user_name').size()`. -/
def countDeaths (ks : List KillEvent) (p : String) : ℕ :=
  (ks.filter (fun k => k.user_name = p)).length

/-- `assists` column: rows with a non-null `assister_name`, grouped by it. -/
def countAssists (ks : List KillEvent) (p : String) : ℕ :=
  (ks.filter (fun k => k.assister_name = some p)).length

/-- `total_damage` column: `groupby('attacker_name')['dmg_health'].sum()`. -/
def totalDamage (ds : List DamageEvent) (p : String) : ℚ :=
  ((ds.filter (fun d => d.attacker_name = p)).map (fun d => d.dmg_health)).sum

/-- The index of the combined stats table: `pd.concat(..., axis=1)` unions the
four groupings' keys, so every name appearing as attacker, victim, assister or
damage dealer gets a row (row order is not tracked; all properties are
per-row). -/
def statPlayers (ks : List KillEvent) (ds : List DamageEvent) : List String :=
  (ks.map (fun k => k.attacker_name) ++ ks.map (fun k => k.user_name) ++
    ks.filterMap (fun k => k.assister_name) ++ ds.map (fun d => d.attacker_name)).dedup

/-- One row of `get_player_statistics`'s output.  `adr` is `Option ℚ` because
the Python float division by a zero round count produces `inf`/`NaN`, modelled
as `none`. -/
structure PlayerStatLine where
  player_name : String
  kills : ℕ
  deaths : ℕ
  assists : ℕ
  headshots : ℕ
  total_damage : ℚ
  kd_ratio : ℚ
  hs_percentage : ℚ
  adr : Option ℚ
deriving DecidableEq, Repr

/-- `total_rounds = len(self.df_rounds) if self.df_rounds is not None else 1`. -/
def totalRoundCount (rounds : Option (List RoundEndEvent)) : ℕ :=
  match rounds with
  | some rs => rs.length
  | none => 1

/-- One stat line of `get_player_statistics`:
`kd_ratio = kills / deaths if deaths > 0 else kills`;
`hs_percentage = (headshots / kills * 100).fillna(0)` (the `NaN` arises exactly
when `kills = 0`); `adr = total_damage / total_rounds` (unguarded: `none` when
the round table is present but empty). -/
def mkStatLine (ks : List KillEvent) (ds : List DamageEvent)
    (rounds : Option (List RoundEndEvent)) (p : String) : PlayerStatLine :=
  let kills := countKills ks p
  let deaths := countDeaths ks p
  let headshots := countHeadshots ks p
  let dmg := totalDamage ds p
  { player_name := p
    kills := kills
    deaths := deaths
    assists := countAssists ks p
    headshots := headshots
    total_damage := dmg
    kd_ratio := if 0 < deaths then (kills : ℚ) / (deaths : ℚ) else (kills : ℚ)
    hs_percentage := if kills = 0 then 0 else (headshots : ℚ) / (kills : ℚ) * 100
    adr := if totalRoundCount rounds = 0 then none
           else some (dmg / (totalRoundCount rounds : ℚ)) }

/-- `CS2DemoParser.get_player_statistics`. -/
def get_player_statistics (ks : List KillEvent) (ds : List DamageEvent)
    (rounds : Option (List RoundEndEvent)) : List PlayerStatLine :=
  (statPlayers ks ds).map (mkStatLine ks ds rounds)

/-- One `RoundInterval` row of `_assign_rounds_to_kills`'s `round_mapping`. -/
structure RoundInterval where
  round : ℕ
  start_tick : ℤ
  end_tick : ℤ
deriving DecidableEq, Repr

/-- The loop body of `_assign_rounds_to_kills` from round `i` on, after at
least one interval was emitted whose `end_tick` is `prevEnd`: each further
round-end tick `t` yields `{round := i, start_tick := prevEnd, end_tick := t}`. -/
def roundMappingAux (i : ℕ) (prevEnd : ℤ) : List ℤ → List RoundInterval
  | [] => []
  | t :: ts => ⟨i, prevEnd, t⟩ :: roundMappingAux (i + 1) t ts

/-- `round_mapping` built from the sorted round-end ticks: round 1's
`start_tick` is its own `end_tick` (`tick if current_round == 1`). -/
def roundMapping : List ℤ → List RoundInterval
  | [] => []
  | t :: ts => ⟨1, t, t⟩ :: roundMappingAux 2 t ts

/-- The containment test of `find_round`: `start_tick <= tick <= end_tick`. -/
def containsTick (iv : RoundInterval) (t : ℤ) : Bool :=
  iv.start_tick ≤ t && t ≤ iv.end_tick

/-- `find_round`: first interval containing the tick, defaulting to round 1. -/
def find_round (m : List RoundInterval) (t : ℤ) : ℕ :=
  match m.find? (fun iv => containsTick iv t) with
  | some iv => iv.round
  | none => 1

/-- The round segmenter: `round_ends = self.df_rounds.sort_values('tick')`,
then the `round_mapping` loop. -/
def roundIntervals (rs : List RoundEndEvent) : List RoundInterval :=
  roundMapping (List.insertionSort (· ≤ ·) (rs.map (fun r => r.tick)))

/-- `_assign_rounds_to_kills`: overwrite each kill's `round` column with
`find_round` of its tick. -/
def assignRounds (ks : List KillEvent) (rs : List RoundEndEvent) : List KillEvent :=
  ks.map (fun k => { k with round := find_round (roundIntervals rs) k.tick })

/-- One row of `get_round_by_round_stats`'s output. -/
structure RoundStatRow where
  round : ℕ
  player_name : String
  kills : ℕ
  deaths : ℕ
  kd_ratio : ℚ
deriving DecidableEq, Repr

/-- The keys of the outer merge of the per-round kill and death groupings:
every `(round, player)` pair under which the player got a kill or died. -/
def roundPairs (ks : List KillEvent) : List (ℕ × String) :=
  (ks.map (fun k => (k.round, k.attacker_name)) ++
    ks.map (fun k => (k.round, k.user_name))).dedup

/-- Kills of player `p` in round `r` (`groupby(['round', 'attacker_name'])`). -/
def roundKillCount (ks : List KillEvent) (r : ℕ) (p : String) : ℕ :=
  (ks.filter (fun k => k.round = r ∧ k.attacker_name = p)).length

/-- Deaths of player `p` in round `r` (`groupby(['round', 'user_name'])`). -/
def roundDeathCount (ks : List KillEvent) (r : ℕ) (p : String) : ℕ :=
  (ks.filter (fun k => k.round = r ∧ k.user_name = p)).length

/-- `CS2DemoParser.get_round_by_round_stats`: outer merge of the two
groupings, missing counts filled with 0, and the same per-row `kd_ratio`
lambda as the aggregator (the final cosmetic `sort_values` reordering is not
tracked; all properties are per-row). -/
def get_round_by_round_stats (ks : List KillEvent) : List RoundStatRow :=
  (roundPairs ks).map (fun rp =>
    let kills := roundKillCount ks rp.1 rp.2
    let deaths := roundDeathCount ks rp.1 rp.2
    { round := rp.1
      player_name := rp.2
      kills := kills
      deaths := deaths
      kd_ratio := if 0 < deaths then (kills : ℚ) / (deaths : ℚ) else (kills : ℚ) })

/-- One multi-kill record of `get_multi_kills` (a `round_num`/`kill_count`/
`tick` dict entry, with the player name it is keyed under). -/
structure MultiKillEvent where
  player_name : String
  round_num : ℕ
  kill_count : ℕ
  tick : ℤ
deriving DecidableEq, Repr

/-- One `groupby(['attacker_name', 'round'])` group. -/
def groupKills (ks : List KillEvent) (p : String) (r : ℕ) : List KillEvent :=
  ks.filter (fun k => k.attacker_name = p ∧ k.round = r)

/-- `'tick': 'min'` aggregation over a group's ticks. -/
def minTick : List ℤ → ℤ
  | [] => 0
  | t :: ts => ts.foldl min t

/-- The distinct `(attacker_name, round)` group keys. -/
def killGroupKeys (ks : List KillEvent) : List (String × ℕ) :=
  (ks.map (fun k => (k.attacker_name, k.round))).dedup

/-- `CS2DemoParser.get_multi_kills`: per `(attacker, round)` group, count the
kills and take the minimum tick; keep only groups with `kill_count >= 2` (the
output dict keyed by player is flattened to the list of its records). -/
def get_multi_kills (ks : List KillEvent) : List MultiKillEvent :=
  (killGroupKeys ks).filterMap (fun g =>
    let grp := groupKills ks g.1 g.2
    if 2 ≤ grp.length then
      some ⟨g.1, g.2, grp.length, minTick (grp.map (fun k => k.tick))⟩
    else none)

/-- A row of the `parse_ticks(["X", "Y", "Z", "health"])` position table; the
external parser also yields the sampled player's name on each row. -/
structure TickRow where
  tick : ℤ
  player_name : String
  pos_x : ℚ
  pos_y : ℚ
  pos_z : ℚ
  health : ℚ
deriving DecidableEq, Repr

/-- An `{x, y, z}` row of `get_positions_for_heatmap`'s output. -/
structure Position where
  x : ℚ
  y : ℚ
  z : ℚ
deriving DecidableEq, Repr

/-- `idxmin` over a distance list: index of the first occurrence of the
minimum (pandas `Series.idxmin` on a default 0-based index). -/
def idxminGo (bi : ℕ) (bv : ℤ) (i : ℕ) : List ℤ → ℕ
  | [] => bi
  | x :: xs => if x < bv then idxminGo i x (i + 1) xs else idxminGo bi bv (i + 1) xs

/-- First index attaining the minimum of the list (0 for the empty list). -/
def idxmin : List ℤ → ℕ
  | [] => 0
  | x :: xs => idxminGo 0 x 1 xs

/-- The event ticks selected by `get_positions_for_heatmap`: the player's kill
ticks, death ticks, or nothing for any other `event_type`. -/
def eventTicks (ks : List KillEvent) (p : String) (event_type : String) : List ℤ :=
  if event_type = "kills" then (ks.filter (fun k => k.attacker_name = p)).map (fun k => k.tick)
  else if event_type = "deaths" then (ks.filter (fun k => k.user_name = p)).map (fun k => k.tick)
  else []

/-- `CS2DemoParser.get_positions_for_heatmap`: for each event tick, take the
row of the position table whose tick is closest (`idxmin` over
`(df_ticks['tick'] - event_tick).abs()`, over the whole table), and keep its
coordinates when it is within 32 ticks. -/
def get_positions_for_heatmap (ticks : List TickRow) (ks : List KillEvent)
    (p : String) (event_type : String) : List Position :=
  if ticks.isEmpty ∨ ks.isEmpty then []
  else
    (eventTicks ks p event_type).filterMap (fun t =>
      let closest := ticks.getD (idxmin (ticks.map (fun row => |row.tick - t|))) ⟨0, "", 0, 0, 0, 0⟩
      if |closest.tick - t| ≤ 32 then some ⟨closest.pos_x, closest.pos_y, closest.pos_z⟩
      else none)

/-- What the external `DemoParser` produced for `parse_demo`: either one of
the `parse_event`/`parse_ticks` calls raised (`failure`, `parse_demo` returns
`False`) or all event tables were decoded. -/
inductive ParseOutcome where
  | failure
  | success (kills : List KillEvent) (damages : List DamageEvent)
      (rounds : List RoundEndEvent)
deriving DecidableEq

/-- `CS2DemoParser.parse_demo`: on success the kill table gets its `round`
column assigned from the round-end table, and the parser state holds the
tables; on failure it returns `False` (no state, modelled as `none`). -/
def parse_demo (raw : ParseOutcome) :
    Option (List KillEvent × List DamageEvent × List RoundEndEvent) :=
  match raw with
  | .failure => none
  | .success ks ds rs => some (assignRounds ks rs, ds, rs)

/-- `quick_parse`: parse, and return the player statistics of the parsed demo,
or an empty table when `parse_demo` reported failure. -/
def quick_parse (raw : ParseOutcome) : List PlayerStatLine :=
  match parse_demo raw with
  | some (ks, ds, rs) => get_player_statistics ks ds (some rs)
  | none => []

/-- A stats row as `generate_rating_report` reads it (`kd_ratio`,
`hs_percentage`, `adr` columns plus the player name). -/
structure StatsRow where
  player_name : String
  kd_ratio : ℚ
  hs_percentage : ℚ
  adr : ℚ
deriving DecidableEq, Repr

/-- One row of the rating report. -/
structure RatedRow where
  player_name : String
  kd_score : ℚ
  hs_score : ℚ
  adr_score : ℚ
  multikill_score : ℚ
  overall_rating : ℚ
  rank : ℕ
deriving DecidableEq, Repr

/-- Round half to even, numpy's rounding mode (used by `Series.round`). -/
def roundHalfEven (x : ℚ) : ℤ :=
  if x - ⌊x⌋ < 1 / 2 then ⌊x⌋
  else if 1 / 2 < x - ⌊x⌋ then ⌊x⌋ + 1
  else if Even ⌊x⌋ then ⌊x⌋ else ⌊x⌋ + 1

/-- `Series.round(1)`: round to one decimal place. -/
def round1 (x : ℚ) : ℚ :=
  (roundHalfEven (x * 10) : ℚ) / 10

/-- `Series.clip(lo, hi)`. -/
def clip (x lo hi : ℚ) : ℚ :=
  min (max x lo) hi

/-- `_calculate_kd_score`: `kd_ratios.clip(0, 3.0) / 3.0 * 100`, rounded. -/
def kd_score (kd : ℚ) : ℚ :=
  round1 (clip kd 0 3 / 3 * 100)

/-- `_calculate_hs_score`: the percentage itself, rounded. -/
def hs_score (hs : ℚ) : ℚ :=
  round1 hs

/-- `_calculate_adr_score`: `adrs.clip(0, 150) / 150 * 100`, rounded. -/
def adr_score (adr : ℚ) : ℚ :=
  round1 (clip adr 0 150 / 150 * 100)

/-- The per-event points of `_calculate_multikill_score`'s
`if kill_count >= 5 ... elif == 2` ladder (nothing added below 2). -/
def multikillPoints (kc : ℕ) : ℚ :=
  if 5 ≤ kc then 50
  else if kc = 4 then 30
  else if kc = 3 then 15
  else if kc = 2 then 5
  else 0

/-- `_calculate_multikill_score`: total banded points of the player's
multi-kill records, capped at 100 (a player with no records scores 0). -/
def multikill_score (mks : List MultiKillEvent) (p : String) : ℚ :=
  min (((mks.filter (fun e => e.player_name = p)).map
    (fun e => multikillPoints e.kill_count)).sum) 100

/-- The hardcoded composite weights of `generate_rating_report`
(`kd_score * 0.35 + hs_score * 0.20 + adr_score * 0.30 + multikill_score * 0.15`). -/
def ratingWeights : ℚ × ℚ × ℚ × ℚ :=
  (0.35, 0.20, 0.30, 0.15)

/-- The component scores and the weighted composite of one stats row (the
report row before the `rank` column is filled in). -/
def scoreRow (mks : List MultiKillEvent) (s : StatsRow) : RatedRow :=
  let kd := kd_score s.kd_ratio
  let hs := hs_score s.hs_percentage
  let ad := adr_score s.adr
  let mk := multikill_score mks s.player_name
  { player_name := s.player_name
    kd_score := kd
    hs_score := hs
    adr_score := ad
    multikill_score := mk
    overall_rating := kd * ratingWeights.1 + hs * ratingWeights.2.1 +
      ad * ratingWeights.2.2.1 + mk * ratingWeights.2.2.2
    rank := 0 }

/-- Pandas `rank(ascending=False, method='dense')`: one plus the number of
distinct values strictly greater than `v`. -/
def denseRank (xs : List ℚ) (v : ℚ) : ℕ :=
  (xs.filter (fun x => v < x)).dedup.length + 1

/-- `PlayerRatingCalculator.generate_rating_report`: score every row, then add
the dense rank over `overall_rating` descending. -/
def generate_rating_report (stats : List StatsRow) (mks : List MultiKillEvent) :
    List RatedRow :=
  let scored := stats.map (scoreRow mks)
  let overalls := scored.map (fun r => r.overall_rating)
  scored.map (fun r => { r with rank := denseRank overalls r.overall_rating })

/-- Modelled from the spec (§4.6), for comparison with the code: a weight
configuration `{kd, hs, adr, multikill}` whose sum is not within
`[0.99, 1.01]` is re-normalized to sum to 1.0 before use. -/
def specEffectiveWeights (w : ℚ × ℚ × ℚ × ℚ) : ℚ × ℚ × ℚ × ℚ :=
  let s := w.1 + w.2.1 + w.2.2.1 + w.2.2.2
  if s < 0.99 ∨ 1.01 < s then (w.1 / s, w.2.1 / s, w.2.2.1 / s, w.2.2.2 / s)
  else w

/-- Modelled from the spec (§4.6): the composite under the effective
(normalized) weights of a configuration. -/
def specComposite (w : ℚ × ℚ × ℚ × ℚ) (kd hs adr mk : ℚ) : ℚ :=
  let e := specEffectiveWeights w
  kd * e.1 + hs * e.2.1 + adr * e.2.2.1 + mk * e.2.2.2

/-- Modelled from the spec (§4.2), for comparison with the code:
`adr = total_damage / max(1, total_rounds)`. -/
def specAdr (dmg : ℚ) (total_rounds : ℕ) : ℚ :=
  dmg / (max 1 total_rounds : ℕ)

/-- The rating dictionary `player_ratings` (a Python dict: unique keys in
insertion order). -/
abbrev Ratings := List (String × ℝ)

/-- `player_ratings.get(p)` / `player_ratings[p]`. -/
def lookupRating : Ratings → String → Option ℝ
  | [], _ => none
  | (q, v) :: rest, p => if q = p then some v else lookupRating rest p

/-- `player_ratings[p] = v`: overwrite in place, or append a new key. -/
def setRating : Ratings → String → ℝ → Ratings
  | [], p, v => [(p, v)]
  | (q, w) :: rest, p, v =>
      if q = p then (q, v) :: rest else (q, w) :: setRating rest p v

/-- `p in player_ratings`. -/
def hasPlayer (rs : Ratings) (p : String) : Bool :=
  (lookupRating rs p).isSome

/-- The initialization loop of `update_ratings`: every player of the stats
table not yet rated gets the base rating. -/
def initRatings (base : ℝ) (ps : List String) (rs : Ratings) : Ratings :=
  ps.foldl (fun acc p => if hasPlayer acc p then acc else acc ++ [(p, base)]) rs

/-- `PlayerRatingCalculator.calculate_expected_score`:
`1 / (1 + 10 ** ((rating_b - rating_a) / 400))`. -/
noncomputable def calculate_expected_score (rating_a rating_b : ℝ) : ℝ :=
  1 / (1 + (10 : ℝ) ^ ((rating_b - rating_a) / 400))

/-- `sum(self.player_ratings.values())`. -/
def ratingsSum (rs : Ratings) : ℝ :=
  (rs.map Prod.snd).sum

/-- One iteration of `update_ratings`'s main loop: performance score from the
row's K/D (capped at 2.0), expected score against the current average rating,
and the in-place rating change by `k_factor * (performance - expected)`. -/
noncomputable def updateOne (k : ℝ) (rs : Ratings) (p : String) (kd : ℝ) : Ratings :=
  let performance_score := min (kd / 2) 1
  let avg_rating := ratingsSum rs / (rs.length : ℝ)
  let expected_score := calculate_expected_score ((lookupRating rs p).getD 0) avg_rating
  setRating rs p ((lookupRating rs p).getD 0 + k * (performance_score - expected_score))

/-- The `PlayerRatingCalculator` object: configuration plus the rating
dictionary it owns across calls. -/
structure PlayerRatingCalculator where
  k_factor : ℝ
  base_rating : ℝ
  player_ratings : Ratings

/-- `PlayerRatingCalculator.update_ratings`: initialize missing players, run
the per-row update loop over the stored dictionary, and keep the updated
dictionary in the object (the method returns a copy of it). -/
noncomputable def update_ratings (c : PlayerRatingCalculator) (stats : List StatsRow) :
    PlayerRatingCalculator :=
  let rs0 := initRatings c.base_rating (stats.map (fun s => s.player_name)) c.player_ratings
  let rs1 := stats.foldl (fun rs row => updateOne c.k_factor rs row.player_name (row.kd_ratio : ℝ)) rs0
  { c with player_ratings := rs1 }

/-- A damage table with one 100-damage hit by "A" (probe input). -/
def dmgTableA : List DamageEvent :=
  [⟨50, "A", 100⟩]

/-- A position table holding a single sample, belonging to player "B". -/
def ticksOnlyB : List TickRow :=
  [⟨100, "B", 1, 2, 3, 100⟩]

/-- A kill table where "A" kills "B" at tick 100 (round already assigned). -/
def killsAonB : List KillEvent :=
  [⟨100, "A", "B", none, "ak47", false, 1⟩]

/-- A kill table where "A" and "B" trade one kill each in round 1. -/
def killsTrade : List KillEvent :=
  [⟨10, "A", "B", none, "ak47", false, 1⟩, ⟨20, "B", "A", none, "ak47", false, 1⟩]

/-- A kill table where "A" kills twice in round 1 (a double kill). -/
def killsDoubleA : List KillEvent :=
  [⟨10, "A", "B", none, "ak47", false, 1⟩, ⟨20, "A", "C", none, "ak47", false, 1⟩]

/-- A stats table with one player at K/D 3 and zeros elsewhere. -/
def statsKd3 : List StatsRow :=
  [⟨"A", 3, 0, 0⟩]

/-- A stats table with two players tied at K/D 3 and one at 0. -/
def statsTied : List StatsRow :=
  [⟨"A", 3, 0, 0⟩, ⟨"B", 3, 0, 0⟩, ⟨"C", 0, 0, 0⟩]

/-- A stats table with one player at K/D 2 (performance score 1.0). -/
def statsKd2 : List StatsRow :=
  [⟨"A", 2, 0, 0⟩]

/-- A fresh calculator with the default configuration (`k_factor = 32`,
`base_rating = 1500`) and an empty rating dictionary. -/
def freshCalculator : PlayerRatingCalculator :=
  ⟨32, 1500, []⟩

/-- Two round-end events, out of tick order (ticks 200 and 100). -/
def roundEndsTwo : List RoundEndEvent :=
  [⟨200, "CT"⟩, ⟨100, "T"⟩]

/-- C10: `quick_parse` never propagates a parsing failure: on failure it
returns the empty statistics table, and on success it returns exactly the
per-player statistics of the parsed demo (kills with rounds assigned). -/
theorem quick_parse_never_propagates_failure :
    quick_parse .failure = [] ∧
    ∀ (ks : List KillEvent) (ds : List DamageEvent) (rs : List RoundEndEvent),
      quick_parse (.success ks ds rs) =
        get_player_statistics (assignRounds ks rs) ds (some rs) :=
  ⟨rfl, fun _ _ _ => rfl⟩

/-- C3 (failing input): with a present-but-empty round table,
`get_player_statistics` divides the total damage by the raw round count 0
(a float `inf`/`NaN`, modelled `none`) instead of the claimed guarded
`total_damage / max(1, total_rounds)`, which would give 100. -/
theorem adr_unguarded_zero_round_division :
    (get_player_statistics [] dmgTableA (some [])).map (fun r => r.adr) = [none] ∧
    specAdr 100 0 = 100 := by
  constructor
  · norm_num [get_player_statistics, statPlayers, mkStatLine, totalRoundCount,
      dmgTableA]
  · norm_num [specAdr]

/-- C2 (failing input): querying player "A"'s kill positions against a
position table whose only sample belongs to player "B" returns B's
coordinates: the nearest-sample search runs over all players' samples, so
cross-player leakage occurs. -/
theorem heatmap_returns_other_players_sample :
    get_positions_for_heatmap ticksOnlyB killsAonB "A" "kills" = [⟨1, 2, 3⟩] ∧
    (ticksOnlyB.filter (fun s => s.player_name = "A")).length = 0 := by
  constructor
  · decide
  · decide

/-- The per-row K/D lambda (`kills / deaths if deaths > 0 else kills`) is
nonnegative, is the quotient when deaths are positive, and is the kill count
when deaths are zero. -/
theorem kd_lambda_spec (kills deaths : ℕ) :
    0 ≤ (if 0 < deaths then (kills : ℚ) / (deaths : ℚ) else (kills : ℚ)) ∧
    (0 < deaths →
      (if 0 < deaths then (kills : ℚ) / (deaths : ℚ) else (kills : ℚ)) =
        (kills : ℚ) / (deaths : ℚ)) ∧
    (deaths = 0 →
      (if 0 < deaths then (kills : ℚ) / (deaths : ℚ) else (kills : ℚ)) =
        (kills : ℚ)) := by
  refine ⟨?_, fun h => if_pos h, fun h => by simp [h]⟩
  split
  · exact div_nonneg (Nat.cast_nonneg _) (Nat.cast_nonneg _)
  · exact Nat.cast_nonneg _

/-- Every row of `get_player_statistics` is the stat line of some player. -/
theorem mem_player_statistics {ks : List KillEvent} {ds : List DamageEvent}
    {rounds : Option (List RoundEndEvent)} {r : PlayerStatLine}
    (h : r ∈ get_player_statistics ks ds rounds) :
    ∃ p, r = mkStatLine ks ds rounds p := by
  rcases List.mem_map.1 h with ⟨p, _, rfl⟩
  exact ⟨p, rfl⟩

/-- C5 (amended): in both the aggregator and the round-by-round composer,
`kd_ratio = kills / deaths` when `deaths > 0`, `kd_ratio = kills` when
`deaths = 0`, and `kd_ratio ≥ 0` — the converse of the zero-death clause does
not hold (see the counterexample). -/
theorem kd_ratio_zero_death_convention :
    (∀ (ks : List KillEvent) (ds : List DamageEvent)
        (rounds : Option (List RoundEndEvent)),
      ∀ r ∈ get_player_statistics ks ds rounds,
        0 ≤ r.kd_ratio ∧
        (0 < r.deaths → r.kd_ratio = (r.kills : ℚ) / (r.deaths : ℚ)) ∧
        (r.deaths = 0 → r.kd_ratio = (r.kills : ℚ))) ∧
    (∀ ks : List KillEvent, ∀ r ∈ get_round_by_round_stats ks,
        0 ≤ r.kd_ratio ∧
        (0 < r.deaths → r.kd_ratio = (r.kills : ℚ) / (r.deaths : ℚ)) ∧
        (r.deaths = 0 → r.kd_ratio = (r.kills : ℚ))) := by
  constructor
  · intro ks ds rounds r hr
    rcases mem_player_statistics hr with ⟨p, rfl⟩
    exact kd_lambda_spec (countKills ks p) (countDeaths ks p)
  · intro ks r hr
    rcases List.mem_map.1 hr with ⟨rp, _, rfl⟩
    exact kd_lambda_spec (roundKillCount ks rp.1 rp.2) (roundDeathCount ks rp.1 rp.2)

/-- C5 (counterexample): it is not the case that `kd_ratio = kills` holds
exactly when `deaths = 0`: in a one-for-one trade, player "A" has one kill and
one death, so `kd_ratio = 1 = kills` although `deaths ≠ 0`. -/
theorem kd_equals_kills_without_zero_deaths :
    ¬ (∀ r ∈ get_player_statistics killsTrade [] (some [⟨100, "T"⟩]),
        (r.kd_ratio = (r.kills : ℚ) ↔ r.deaths = 0)) := by
  intro h
  have hm : mkStatLine killsTrade [] (some [⟨100, "T"⟩]) "A" ∈
      get_player_statistics killsTrade [] (some [⟨100, "T"⟩]) :=
    List.mem_map_of_mem _ (by decide)
  have e1 : countKills killsTrade "A" = 1 := by decide
  have e2 : countDeaths killsTrade "A" = 1 := by decide
  have h2 := h _ hm
  simp only [mkStatLine] at h2
  rw [e1, e2] at h2
  norm_num at h2

/-- The per-row headshot-percentage value (`headshots / kills * 100`, with the
`kills = 0` case filled to 0) lies in `[0, 100]` whenever `headshots ≤ kills`,
and is 0 at zero kills. -/
theorem hs_lambda_bounds (h k : ℕ) (hk : h ≤ k) :
    0 ≤ (if k = 0 then (0 : ℚ) else (h : ℚ) / (k : ℚ) * 100) ∧
    (if k = 0 then (0 : ℚ) else (h : ℚ) / (k : ℚ) * 100) ≤ 100 ∧
    (k = 0 → (if k = 0 then (0 : ℚ) else (h : ℚ) / (k : ℚ) * 100) = 0) := by
  refine ⟨?_, ?_, fun hz => by simp [hz]⟩
  · split
    · norm_num
    · positivity
  · split
    · norm_num
    · rename_i hne
      have hkpos : (0 : ℚ) < (k : ℚ) := by
        exact_mod_cast Nat.pos_of_ne_zero hne
      have hdiv : (h : ℚ) / (k : ℚ) ≤ 1 := (div_le_one hkpos).2 (by exact_mod_cast hk)
      calc (h : ℚ) / (k : ℚ) * 100 ≤ 1 * 100 :=
            mul_le_mul_of_nonneg_right hdiv (by norm_num)
        _ = 100 := by norm_num

/-- C6: every stat line has `0 ≤ hs_percentage ≤ 100`, and `hs_percentage = 0`
whenever `kills = 0` (players appearing only as victims included). -/
theorem hs_percentage_bounds :
    ∀ (ks : List KillEvent) (ds : List DamageEvent)
      (rounds : Option (List RoundEndEvent)),
      ∀ r ∈ get_player_statistics ks ds rounds,
        0 ≤ r.hs_percentage ∧ r.hs_percentage ≤ 100 ∧
        (r.kills = 0 → r.hs_percentage = 0) := by
  intro ks ds rounds r hr
  rcases mem_player_statistics hr with ⟨p, rfl⟩
  have hk : countHeadshots ks p ≤ countKills ks p :=
    List.length_filter_le _ (killsBy ks p)
  exact hs_lambda_bounds (countHeadshots ks p) (countKills ks p) hk

/-- Witness for C5 at a concrete input: player "A" of the one-for-one trade. -/
theorem kd_ratio_zero_death_convention_witness :
    0 ≤ (mkStatLine killsTrade dmgTableA none "A").kd_ratio ∧
    (0 < (mkStatLine killsTrade dmgTableA none "A").deaths →
      (mkStatLine killsTrade dmgTableA none "A").kd_ratio =
        ((mkStatLine killsTrade dmgTableA none "A").kills : ℚ) /
          ((mkStatLine killsTrade dmgTableA none "A").deaths : ℚ)) ∧
    ((mkStatLine killsTrade dmgTableA none "A").deaths = 0 →
      (mkStatLine killsTrade dmgTableA none "A").kd_ratio =
        ((mkStatLine killsTrade dmgTableA none "A").kills : ℚ)) :=
  kd_ratio_zero_death_convention.1 killsTrade dmgTableA none _
    (List.mem_map_of_mem _ (by decide))

/-- Witness for C6 at a concrete input: player "B" of the one-for-one trade. -/
theorem hs_percentage_bounds_witness :
    0 ≤ (mkStatLine killsTrade dmgTableA none "B").hs_percentage ∧
    (mkStatLine killsTrade dmgTableA none "B").hs_percentage ≤ 100 ∧
    ((mkStatLine killsTrade dmgTableA none "B").kills = 0 →
      (mkStatLine killsTrade dmgTableA none "B").hs_percentage = 0) :=
  hs_percentage_bounds killsTrade dmgTableA none _
    (List.mem_map_of_mem _ (by decide))

/-- `foldl min` is bounded by its initial accumulator. -/
theorem foldl_min_le_init (l : List ℤ) : ∀ a : ℤ, l.foldl min a ≤ a := by
  induction l with
  | nil => intro a; exact le_refl a
  | cons x xs ih =>
      intro a
      calc (x :: xs).foldl min a = xs.foldl min (min a x) := rfl
        _ ≤ min a x := ih (min a x)
        _ ≤ a := min_le_left a x

/-- `foldl min` is a lower bound of the list. -/
theorem foldl_min_le_mem (l : List ℤ) : ∀ a : ℤ, ∀ t ∈ l, l.foldl min a ≤ t := by
  induction l with
  | nil => intro a t ht; cases ht
  | cons x xs ih =>
      intro a t ht
      rcases List.mem_cons.1 ht with rfl | hxs
      · calc (t :: xs).foldl min a = xs.foldl min (min a t) := rfl
          _ ≤ min a t := foldl_min_le_init xs (min a t)
          _ ≤ t := min_le_right a t
      · exact ih (min a x) t hxs

/-- `foldl min` attains either its initial accumulator or a list element. -/
theorem foldl_min_attained (l : List ℤ) :
    ∀ a : ℤ, l.foldl min a = a ∨ l.foldl min a ∈ l := by
  induction l with
  | nil => intro a; exact Or.inl rfl
  | cons x xs ih =>
      intro a
      rcases ih (min a x) with h | h
      · rcases min_choice a x with hmin | hmin
        · exact Or.inl (by rw [List.foldl_cons, h, hmin])
        · refine Or.inr (List.mem_cons.2 (Or.inl ?_))
          rw [List.foldl_cons, h, hmin]
      · exact Or.inr (List.mem_cons.2 (Or.inr h))

/-- The `'tick': 'min'` aggregate is a lower bound of the group's ticks. -/
theorem minTick_le (l : List ℤ) : ∀ t ∈ l, minTick l ≤ t := by
  cases l with
  | nil => intro t ht; cases ht
  | cons x xs =>
      intro t ht
      rcases List.mem_cons.1 ht with rfl | hxs
      · calc minTick (t :: xs) = xs.foldl min t := rfl
          _ ≤ t := foldl_min_le_init xs t
      · exact foldl_min_le_mem xs x t hxs

/-- The `'tick': 'min'` aggregate of a nonempty group is one of its ticks. -/
theorem minTick_mem (l : List ℤ) (h : l ≠ []) : minTick l ∈ l := by
  cases l with
  | nil => exact absurd rfl h
  | cons x xs =>
      rcases foldl_min_attained xs x with hx | hx
      · exact List.mem_cons.2 (Or.inl hx)
      · exact List.mem_cons.2 (Or.inr hx)

/-- Every reported multi-kill record is canonical: its group has at least two
kills, and the record is exactly (player, round, group size, minimum tick). -/
theorem mem_multi_kills {ks : List KillEvent} {e : MultiKillEvent}
    (h : e ∈ get_multi_kills ks) :
    2 ≤ (groupKills ks e.player_name e.round_num).length ∧
    e = ⟨e.player_name, e.round_num, (groupKills ks e.player_name e.round_num).length,
      minTick ((groupKills ks e.player_name e.round_num).map (fun k => k.tick))⟩ := by
  rcases List.mem_filterMap.1 h with ⟨g, _, hg⟩
  simp only at hg
  split at hg
  · rename_i hlen
    cases Option.some.inj hg
    exact ⟨hlen, rfl⟩
  · cases hg

/-- C7: the multi-kill detector reports at most one record per
`(player, round)` pair; every record has `kill_count ≥ 2`, `kill_count` equal
to the player's number of kills in that round, and a first-kill tick that is a
kill tick of the group and a lower bound of all of them. -/
theorem multi_kill_group_uniqueness :
    ∀ ks : List KillEvent,
      (∀ e ∈ get_multi_kills ks,
        2 ≤ e.kill_count ∧
        e.kill_count = (groupKills ks e.player_name e.round_num).length ∧
        e.tick ∈ (groupKills ks e.player_name e.round_num).map (fun k => k.tick) ∧
        (∀ t ∈ (groupKills ks e.player_name e.round_num).map (fun k => k.tick),
          e.tick ≤ t)) ∧
      (∀ e₁ ∈ get_multi_kills ks, ∀ e₂ ∈ get_multi_kills ks,
        e₁.player_name = e₂.player_name → e₁.round_num = e₂.round_num →
          e₁ = e₂) := by
  intro ks
  constructor
  · intro e he
    rcases mem_multi_kills he with ⟨hlen, hcanon⟩
    have hck : e.kill_count = (groupKills ks e.player_name e.round_num).length := by
      conv_lhs => rw [hcanon]
    have htick : e.tick =
        minTick ((groupKills ks e.player_name e.round_num).map (fun k => k.tick)) := by
      conv_lhs => rw [hcanon]
    have hne : (groupKills ks e.player_name e.round_num).map (fun k => k.tick) ≠ [] := by
      intro hnil
      have : (groupKills ks e.player_name e.round_num).length = 0 := by
        simpa using congrArg List.length hnil
      omega
    refine ⟨by omega, hck, ?_, ?_⟩
    · rw [htick]; exact minTick_mem _ hne
    · intro t ht; rw [htick]; exact minTick_le _ t ht
  · intro e₁ h₁ e₂ h₂ hp hr
    have c₁ := (mem_multi_kills h₁).2
    have c₂ := (mem_multi_kills h₂).2
    rw [c₁, c₂, hp, hr]

/-- Witness for C7 at a concrete input: the double kill of player "A". -/
theorem multi_kill_group_uniqueness_witness :
    2 ≤ (2 : ℕ) ∧
    (2 : ℕ) = (groupKills killsDoubleA "A" 1).length ∧
    (10 : ℤ) ∈ (groupKills killsDoubleA "A" 1).map (fun k => k.tick) ∧
    (∀ t ∈ (groupKills killsDoubleA "A" 1).map (fun k => k.tick), (10 : ℤ) ≤ t) :=
  (multi_kill_group_uniqueness killsDoubleA).1 ⟨"A", 1, 2, 10⟩ (by decide)

/-- A value no element exceeds has dense rank 1. -/
theorem denseRank_top (xs : List ℚ) (v : ℚ) (h : ∀ u ∈ xs, u ≤ v) :
    denseRank xs v = 1 := by
  unfold denseRank
  have hnil : xs.filter (fun x => v < x) = [] := by
    rw [List.filter_eq_nil_iff]
    intro a ha
    simpa using not_lt.2 (h a ha)
  rw [hnil]
  rfl

/-- Dense ranks step by exactly one between adjacent distinct values. -/
theorem denseRank_succ (xs : List ℚ) (v w : ℚ) (hv : v ∈ xs) (hlt : w < v)
    (hbetween : ∀ x ∈ xs, ¬(w < x ∧ x < v)) :
    denseRank xs w = denseRank xs v + 1 := by
  have hset : (xs.filter (fun x => w < x)).toFinset =
      insert v (xs.filter (fun x => v < x)).toFinset := by
    ext x
    simp only [List.mem_toFinset, List.mem_filter, Finset.mem_insert,
      decide_eq_true_eq]
    constructor
    · rintro ⟨hx, hwx⟩
      rcases lt_trichotomy x v with h1 | h1 | h1
      · exact absurd ⟨hwx, h1⟩ (hbetween x hx)
      · exact Or.inl h1
      · exact Or.inr ⟨hx, h1⟩
    · rintro (rfl | ⟨hx, hvx⟩)
      · exact ⟨hv, hlt⟩
      · exact ⟨hx, lt_trans hlt hvx⟩
  have hv_not : v ∉ (xs.filter (fun x => v < x)).toFinset := by
    simp [List.mem_filter]
  have hcard := congrArg Finset.card hset
  rw [Finset.card_insert_of_not_mem hv_not] at hcard
  simp only [denseRank, ← List.card_toFinset]
  omega

/-- The overall ratings of the report are those of the scored rows (filling in
the `rank` column does not change them). -/
theorem report_overalls (stats : List StatsRow) (mks : List MultiKillEvent) :
    (generate_rating_report stats mks).map (fun x => x.overall_rating) =
      (stats.map (scoreRow mks)).map (fun x => x.overall_rating) := by
  simp only [generate_rating_report, List.map_map]
  rfl

/-- Every report row's `rank` is the dense rank of its own `overall_rating`
within the report's rating column. -/
theorem mem_rating_report {stats : List StatsRow} {mks : List MultiKillEvent}
    {r : RatedRow} (h : r ∈ generate_rating_report stats mks) :
    r.rank = denseRank
        ((generate_rating_report stats mks).map (fun x => x.overall_rating))
        r.overall_rating ∧
    r.overall_rating ∈
      (generate_rating_report stats mks).map (fun x => x.overall_rating) := by
  refine ⟨?_, List.mem_map_of_mem _ h⟩
  rw [report_overalls]
  rcases List.mem_map.1 h with ⟨s, _, rfl⟩
  rfl

/-- C8: the report's `rank` is a dense rank over `overall_rating` descending:
a top-rated row has rank 1, equal ratings share a rank, and the next lower
distinct rating gets exactly `rank + 1` regardless of tie-group sizes. -/
theorem dense_ranking_report :
    ∀ (stats : List StatsRow) (mks : List MultiKillEvent),
      (∀ r ∈ generate_rating_report stats mks,
        (∀ r' ∈ generate_rating_report stats mks,
          r'.overall_rating ≤ r.overall_rating) → r.rank = 1) ∧
      (∀ r ∈ generate_rating_report stats mks,
        ∀ r' ∈ generate_rating_report stats mks,
          r.overall_rating = r'.overall_rating → r.rank = r'.rank) ∧
      (∀ r ∈ generate_rating_report stats mks,
        ∀ r' ∈ generate_rating_report stats mks,
          r'.overall_rating < r.overall_rating →
          (∀ x ∈ generate_rating_report stats mks,
            ¬(r'.overall_rating < x.overall_rating ∧
              x.overall_rating < r.overall_rating)) →
          r'.rank = r.rank + 1) := by
  intro stats mks
  refine ⟨?_, ?_, ?_⟩
  · intro r hr htop
    rcases mem_rating_report hr with ⟨hrank, _⟩
    rw [hrank]
    apply denseRank_top
    intro u hu
    rcases List.mem_map.1 hu with ⟨x, hx, rfl⟩
    exact htop x hx
  · intro r hr r' hr' heq
    rcases mem_rating_report hr with ⟨hrank, _⟩
    rcases mem_rating_report hr' with ⟨hrank', _⟩
    rw [hrank, hrank', heq]
  · intro r hr r' hr' hlt hbetween
    rcases mem_rating_report hr with ⟨hrank, hmem⟩
    rcases mem_rating_report hr' with ⟨hrank', _⟩
    rw [hrank, hrank']
    apply denseRank_succ _ _ _ hmem hlt
    intro x hx
    rcases List.mem_map.1 hx with ⟨y, hy, rfl⟩
    exact hbetween y hy

/-- The rating report of `statsTied`, evaluated. -/
theorem report_statsTied_eval :
    generate_rating_report statsTied [] =
      [⟨"A", 100, 0, 0, 0, 35, 1⟩, ⟨"B", 100, 0, 0, 0, 35, 1⟩,
       ⟨"C", 0, 0, 0, 0, 0, 2⟩] := by
  norm_num [generate_rating_report, scoreRow, kd_score, hs_score, adr_score,
    multikill_score, round1, roundHalfEven, clip, min_def, max_def,
    ratingWeights, denseRank, statsTied, List.filter, List.dedup]

/-- Witness for C8 at a concrete input: two players tied at rating 35 share
rank 1, and the next distinct rating 0 gets rank 2. -/
theorem dense_ranking_report_witness :
    (⟨"A", 100, 0, 0, 0, 35, 1⟩ : RatedRow).rank = 1 ∧
    (⟨"A", 100, 0, 0, 0, 35, 1⟩ : RatedRow).rank =
      (⟨"B", 100, 0, 0, 0, 35, 1⟩ : RatedRow).rank ∧
    (⟨"C", 0, 0, 0, 0, 0, 2⟩ : RatedRow).rank =
      (⟨"A", 100, 0, 0, 0, 35, 1⟩ : RatedRow).rank + 1 := by
  have h := dense_ranking_report statsTied []
  have hA : (⟨"A", 100, 0, 0, 0, 35, 1⟩ : RatedRow) ∈
      generate_rating_report statsTied [] := by
    rw [report_statsTied_eval]; simp
  have hB : (⟨"B", 100, 0, 0, 0, 35, 1⟩ : RatedRow) ∈
      generate_rating_report statsTied [] := by
    rw [report_statsTied_eval]; simp
  have hC : (⟨"C", 0, 0, 0, 0, 0, 2⟩ : RatedRow) ∈
      generate_rating_report statsTied [] := by
    rw [report_statsTied_eval]; simp
  refine ⟨h.1 _ hA ?_, h.2.1 _ hA _ hB rfl, h.2.2 _ hA _ hC (by norm_num) ?_⟩
  · intro r' hr'
    rw [report_statsTied_eval] at hr'
    simp only [List.mem_cons, List.not_mem_nil, or_false] at hr'
    rcases hr' with rfl | rfl | rfl <;> norm_num
  · intro x hx
    rw [report_statsTied_eval] at hx
    simp only [List.mem_cons, List.not_mem_nil, or_false] at hx
    rcases hx with rfl | rfl | rfl <;> norm_num

/-- The rating report of `statsKd3`, evaluated. -/
theorem report_statsKd3_eval :
    generate_rating_report statsKd3 [] = [⟨"A", 100, 0, 0, 0, 35, 1⟩] := by
  norm_num [generate_rating_report, scoreRow, kd_score, hs_score, adr_score,
    multikill_score, round1, roundHalfEven, clip, min_def, max_def,
    ratingWeights, denseRank, statsKd3, List.filter, List.dedup]

/-- C1 (counterexample): under the weight configuration `(2, 0, 0, 0)` — four
non-negative numbers whose sum 2 lies outside `[0.99, 1.01]` — the engine's
composite (35, from the hardcoded weights) differs from the composite under
the spec's normalized effective weights (100): no re-normalized configuration
is ever applied. -/
theorem fixed_weights_ignore_configuration :
    (1.01 < (2 : ℚ) + 0 + 0 + 0) ∧
    (generate_rating_report statsKd3 []).map (fun r => r.overall_rating) =
      [35] ∧
    (generate_rating_report statsKd3 []).map (fun r =>
      specComposite (2, 0, 0, 0) r.kd_score r.hs_score r.adr_score
        r.multikill_score) = [100] ∧
    (35 : ℚ) ≠ 100 := by
  refine ⟨by norm_num, ?_, ?_, by norm_num⟩
  · rw [report_statsKd3_eval]
    rfl
  · rw [report_statsKd3_eval]
    norm_num [specComposite, specEffectiveWeights]

/-- C1 (amended): the rating engine accepts no weight configuration; its
composite is always the weighted sum under the hardcoded weights
`(0.35, 0.20, 0.30, 0.15)`, which sum to exactly 1. -/
theorem overall_rating_fixed_weighted_sum :
    (∀ (stats : List StatsRow) (mks : List MultiKillEvent),
      ∀ r ∈ generate_rating_report stats mks,
        r.overall_rating = r.kd_score * ratingWeights.1 +
          r.hs_score * ratingWeights.2.1 + r.adr_score * ratingWeights.2.2.1 +
          r.multikill_score * ratingWeights.2.2.2) ∧
    ratingWeights.1 + ratingWeights.2.1 + ratingWeights.2.2.1 +
      ratingWeights.2.2.2 = 1 := by
  constructor
  · intro stats mks r hr
    rcases List.mem_map.1 hr with ⟨s, hs', rfl⟩
    rcases List.mem_map.1 hs' with ⟨t, _, rfl⟩
    rfl
  · norm_num [ratingWeights]

/-- Witness for C1's amended statement at a concrete input. -/
theorem overall_rating_fixed_weighted_sum_witness :
    (⟨"A", 100, 0, 0, 0, 35, 1⟩ : RatedRow).overall_rating =
      (⟨"A", 100, 0, 0, 0, 35, 1⟩ : RatedRow).kd_score * ratingWeights.1 +
      (⟨"A", 100, 0, 0, 0, 35, 1⟩ : RatedRow).hs_score * ratingWeights.2.1 +
      (⟨"A", 100, 0, 0, 0, 35, 1⟩ : RatedRow).adr_score * ratingWeights.2.2.1 +
      (⟨"A", 100, 0, 0, 0, 35, 1⟩ : RatedRow).multikill_score *
        ratingWeights.2.2.2 :=
  overall_rating_fixed_weighted_sum.1 statsKd3 [] _
    (by rw [report_statsKd3_eval]; simp)

/-- The `round_mapping` loop emits one interval per round-end tick. -/
theorem roundMappingAux_length (ts : List ℤ) :
    ∀ (i : ℕ) (p : ℤ), (roundMappingAux i p ts).length = ts.length := by
  induction ts with
  | nil => intro i p; rfl
  | cons t ts ih => intro i p; simp [roundMappingAux, ih]

/-- `round_mapping` has one interval per round-end tick. -/
theorem roundMapping_length (ts : List ℤ) :
    (roundMapping ts).length = ts.length := by
  cases ts with
  | nil => rfl
  | cons t ts => simp [roundMapping, roundMappingAux_length]

/-- Closed form of the `round_mapping` loop body: from round `i` with pending
end tick `p`, the `k`-th emitted interval is
`{round := i + k, start := (p :: ts)[k], end := ts[k]}`. -/
theorem roundMappingAux_getD (ts : List ℤ) :
    ∀ (i : ℕ) (p : ℤ) (k : ℕ), k < ts.length →
      (roundMappingAux i p ts).getD k ⟨0, 0, 0⟩ =
        ⟨i + k, (p :: ts).getD k 0, ts.getD k 0⟩ := by
  induction ts with
  | nil => intro i p k hk; cases hk
  | cons t ts ih =>
      intro i p k hk
      cases k with
      | zero => simp [roundMappingAux]
      | succ k =>
          have hk' : k < ts.length := by simpa using hk
          simp only [roundMappingAux, List.getD_cons_succ, ih (i + 1) t k hk',
            RoundInterval.mk.injEq, and_true]
          omega

/-- Closed form of `round_mapping` over a nonempty tick list: the `k`-th
interval is `{round := k + 1, start := (t :: t :: ts)[k], end := (t :: ts)[k]}`
(round 1 degenerates to `[t, t]`). -/
theorem roundMapping_getD (t : ℤ) (ts : List ℤ) (k : ℕ)
    (hk : k < (t :: ts).length) :
    (roundMapping (t :: ts)).getD k ⟨0, 0, 0⟩ =
      ⟨k + 1, (t :: t :: ts).getD k 0, (t :: ts).getD k 0⟩ := by
  cases k with
  | zero => rfl
  | succ k =>
      have hk' : k < ts.length := by simpa using hk
      simp only [roundMapping, List.getD_cons_succ,
        roundMappingAux_getD ts 2 t k hk', RoundInterval.mk.injEq, and_true]
      omega

/-- `getD` of a nondecreasingly sorted integer list is monotone in the index. -/
theorem sorted_getD_mono {s : List ℤ} (hs : List.Sorted (· ≤ ·) s) {i j : ℕ}
    (hij : i ≤ j) (hj : j < s.length) : s.getD i 0 ≤ s.getD j 0 := by
  have hi : i < s.length := Nat.lt_of_le_of_lt hij hj
  rw [List.getD_eq_getElem _ _ hi, List.getD_eq_getElem _ _ hj]
  have h := hs.rel_get_of_le (a := ⟨i, hi⟩) (b := ⟨j, hj⟩) (Fin.mk_le_mk.2 hij)
  simpa using h

/-- Structure of `round_mapping` over sorted ticks: contiguous 1-based round
indices, each start equal to the previous end, starts below ends, and
pairwise-disjoint interval interiors. -/
theorem roundMapping_sorted_structure (s : List ℤ) (hs : List.Sorted (· ≤ ·) s) :
    (∀ k, k < (roundMapping s).length →
      ((roundMapping s).getD k ⟨0, 0, 0⟩).round = k + 1) ∧
    (∀ k, k + 1 < (roundMapping s).length →
      ((roundMapping s).getD (k + 1) ⟨0, 0, 0⟩).start_tick =
        ((roundMapping s).getD k ⟨0, 0, 0⟩).end_tick) ∧
    (∀ k, k < (roundMapping s).length →
      ((roundMapping s).getD k ⟨0, 0, 0⟩).start_tick ≤
        ((roundMapping s).getD k ⟨0, 0, 0⟩).end_tick) ∧
    (∀ j k x, j < k → k < (roundMapping s).length →
      ¬(((roundMapping s).getD j ⟨0, 0, 0⟩).start_tick < x ∧
        x < ((roundMapping s).getD j ⟨0, 0, 0⟩).end_tick ∧
        ((roundMapping s).getD k ⟨0, 0, 0⟩).start_tick < x ∧
        x < ((roundMapping s).getD k ⟨0, 0, 0⟩).end_tick)) := by
  cases s with
  | nil =>
      refine ⟨?_, ?_, ?_, ?_⟩
      · intro k hk; simp [roundMapping] at hk
      · intro k hk; simp [roundMapping] at hk
      · intro k hk; simp [roundMapping] at hk
      · intro j k x _ hk; simp [roundMapping] at hk
  | cons t ts =>
      have hlen : (roundMapping (t :: ts)).length = (t :: ts).length :=
        roundMapping_length _
      refine ⟨?_, ?_, ?_, ?_⟩
      · intro k hk
        rw [hlen] at hk
        rw [roundMapping_getD t ts k hk]
      · intro k hk
        rw [hlen] at hk
        have hk0 : k < (t :: ts).length := by omega
        rw [roundMapping_getD t ts (k + 1) hk, roundMapping_getD t ts k hk0]
        simp [List.getD_cons_succ]
      · intro k hk
        rw [hlen] at hk
        rw [roundMapping_getD t ts k hk]
        cases k with
        | zero => exact le_refl t
        | succ k =>
            simp only [List.getD_cons_succ]
            exact sorted_getD_mono hs (Nat.le_succ k) hk
      · intro j k x hjk hk
        rw [hlen] at hk
        have hj : j < (t :: ts).length := by omega
        cases k with
        | zero => omega
        | succ k =>
            rw [roundMapping_getD t ts j hj, roundMapping_getD t ts (k + 1) hk]
            dsimp only
            simp only [List.getD_cons_succ]
            rintro ⟨_, h2, h3, _⟩
            have hmono : (t :: ts).getD j 0 ≤ (t :: ts).getD k 0 :=
              sorted_getD_mono hs (by omega) (by omega)
            omega

/-- C9 (amended): the round segmenter's intervals have strictly increasing,
contiguous 1-based round indices; each round's `start_tick` is the previous
round's `end_tick`; every `start_tick` is at most its `end_tick`; and the open
interiors of distinct intervals are disjoint — but adjacent closed intervals
share their boundary tick (see the counterexample). -/
theorem round_intervals_structure :
    ∀ rs : List RoundEndEvent,
      (∀ k, k < (roundIntervals rs).length →
        ((roundIntervals rs).getD k ⟨0, 0, 0⟩).round = k + 1) ∧
      (∀ k, k + 1 < (roundIntervals rs).length →
        ((roundIntervals rs).getD (k + 1) ⟨0, 0, 0⟩).start_tick =
          ((roundIntervals rs).getD k ⟨0, 0, 0⟩).end_tick) ∧
      (∀ k, k < (roundIntervals rs).length →
        ((roundIntervals rs).getD k ⟨0, 0, 0⟩).start_tick ≤
          ((roundIntervals rs).getD k ⟨0, 0, 0⟩).end_tick) ∧
      (∀ j k x, j < k → k < (roundIntervals rs).length →
        ¬(((roundIntervals rs).getD j ⟨0, 0, 0⟩).start_tick < x ∧
          x < ((roundIntervals rs).getD j ⟨0, 0, 0⟩).end_tick ∧
          ((roundIntervals rs).getD k ⟨0, 0, 0⟩).start_tick < x ∧
          x < ((roundIntervals rs).getD k ⟨0, 0, 0⟩).end_tick)) :=
  fun _ => roundMapping_sorted_structure _ (List.sorted_insertionSort _ _)

/-- C9 (counterexample): with round ends at ticks 100 and 200, the boundary
tick 100 lies in both interval 1 (`[100, 100]`) and interval 2 (`[100, 200]`)
under the code's own inclusive containment test, so a tick can lie inside two
distinct intervals. -/
theorem boundary_tick_in_two_intervals :
    roundIntervals roundEndsTwo = [⟨1, 100, 100⟩, ⟨2, 100, 200⟩] ∧
    containsTick ⟨1, 100, 100⟩ 100 = true ∧
    containsTick ⟨2, 100, 200⟩ 100 = true ∧
    (⟨1, 100, 100⟩ : RoundInterval) ≠ ⟨2, 100, 200⟩ := by
  refine ⟨by decide, by decide, by decide, by decide⟩

/-- Witness for C9's amended statement at a concrete input. -/
theorem round_intervals_structure_witness :
    ((roundIntervals roundEndsTwo).getD 0 ⟨0, 0, 0⟩).round = 0 + 1 ∧
    ((roundIntervals roundEndsTwo).getD (0 + 1) ⟨0, 0, 0⟩).start_tick =
      ((roundIntervals roundEndsTwo).getD 0 ⟨0, 0, 0⟩).end_tick ∧
    ((roundIntervals roundEndsTwo).getD 1 ⟨0, 0, 0⟩).start_tick ≤
      ((roundIntervals roundEndsTwo).getD 1 ⟨0, 0, 0⟩).end_tick ∧
    ¬(((roundIntervals roundEndsTwo).getD 0 ⟨0, 0, 0⟩).start_tick < 150 ∧
      (150 : ℤ) < ((roundIntervals roundEndsTwo).getD 0 ⟨0, 0, 0⟩).end_tick ∧
      ((roundIntervals roundEndsTwo).getD 1 ⟨0, 0, 0⟩).start_tick < 150 ∧
      (150 : ℤ) < ((roundIntervals roundEndsTwo).getD 1 ⟨0, 0, 0⟩).end_tick) := by
  have h := round_intervals_structure roundEndsTwo
  exact ⟨h.1 0 (by decide), h.2.1 0 (by decide), h.2.2.1 1 (by decide),
    h.2.2.2 0 1 150 (by decide) (by decide)⟩

/-- Against an equal opponent (here: the average of a one-player dictionary is
the player's own rating) the expected score is exactly 1/2. -/
theorem expected_score_self (r : ℝ) : calculate_expected_score r r = 1 / 2 := by
  unfold calculate_expected_score
  rw [sub_self, zero_div, Real.rpow_zero]
  norm_num

/-- One loop iteration over a one-player dictionary: the stored rating moves
by `k * (min(kd / 2, 1) - 1/2)`. -/
theorem updateOne_single (k r : ℝ) (p : String) (kd : ℝ) :
    updateOne k [(p, r)] p kd = [(p, r + k * (min (kd / 2) 1 - 1 / 2))] := by
  unfold updateOne
  simp [lookupRating, setRating, ratingsSum, expected_score_self]

/-- An `update_ratings` call on a calculator tracking exactly one player at
stored rating `r` moves that rating by `k_factor * (min(kd / 2, 1) - 1/2)`. -/
theorem update_ratings_single_state (k base r : ℝ) (p : String) (kd hs adr : ℚ) :
    (update_ratings ⟨k, base, [(p, r)]⟩ [⟨p, kd, hs, adr⟩]).player_ratings =
      [(p, r + k * (min ((kd : ℝ) / 2) 1 - 1 / 2))] := by
  unfold update_ratings initRatings
  simp [hasPlayer, lookupRating, updateOne_single]

/-- C4 (amended): `update_ratings` is not stateless — it is the deterministic
transition of the calculator's stored `player_ratings` dictionary: for a
calculator tracking exactly one player at stored rating `r`, the updated
dictionary is `[(p, r + k_factor * (min(kd / 2, 1) - 1/2))]`, so the output
depends on the rating carried over from earlier calls (see the
counterexample for two successive equal-input calls diverging). -/
theorem update_ratings_threads_stored_state :
    ∀ (k base r : ℝ) (p : String) (kd hs adr : ℚ),
      (update_ratings ⟨k, base, [(p, r)]⟩ [⟨p, kd, hs, adr⟩]).player_ratings =
        [(p, r + k * (min ((kd : ℝ) / 2) 1 - 1 / 2))] :=
  update_ratings_single_state

/-- A first call starting from an empty dictionary first initializes the
player at the base rating, then applies the same one-player update. -/
theorem update_ratings_from_empty (k base : ℝ) (p : String) (kd hs adr : ℚ) :
    (update_ratings ⟨k, base, []⟩ [⟨p, kd, hs, adr⟩]).player_ratings =
      [(p, base + k * (min ((kd : ℝ) / 2) 1 - 1 / 2))] := by
  unfold update_ratings initRatings
  simp [hasPlayer, lookupRating, updateOne_single]

/-- `update_ratings` only reads the calculator through its three fields. -/
theorem update_ratings_congr (c c' : PlayerRatingCalculator)
    (hk : c.k_factor = c'.k_factor) (hb : c.base_rating = c'.base_rating)
    (hr : c.player_ratings = c'.player_ratings) (stats : List StatsRow) :
    update_ratings c stats = update_ratings c' stats := by
  cases c; cases c'
  cases hk; cases hb; cases hr
  rfl

/-- C4 (counterexample): the engine owns state across calls — two successive
invocations of `update_ratings` with the same input (one player at K/D 2.0,
default configuration) return different dictionaries (rating 1516, then
1532), because the second call starts from the mutated `player_ratings`. -/
theorem update_ratings_not_stateless :
    (update_ratings freshCalculator statsKd2).player_ratings ≠
      (update_ratings (update_ratings freshCalculator statsKd2)
        statsKd2).player_ratings := by
  have harith : ∀ r : ℝ, r + 32 * (min (((2 : ℚ) : ℝ) / 2) 1 - 1 / 2) = r + 16 := by
    intro r
    push_cast
    norm_num [min_def]
  have h1 : (update_ratings freshCalculator statsKd2).player_ratings =
      [("A", (1516 : ℝ))] := by
    have h := update_ratings_from_empty 32 1500 "A" 2 0 0
    have h' : (update_ratings freshCalculator statsKd2).player_ratings =
        [("A", (1500 : ℝ) + 32 * (min (((2 : ℚ) : ℝ) / 2) 1 - 1 / 2))] := h
    rw [h', harith]
    norm_num
  have hstep : update_ratings (update_ratings freshCalculator statsKd2) statsKd2 =
      update_ratings ⟨32, 1500, [("A", (1516 : ℝ))]⟩ statsKd2 :=
    update_ratings_congr (update_ratings freshCalculator statsKd2)
      ⟨32, 1500, [("A", (1516 : ℝ))]⟩ rfl rfl h1 statsKd2
  have h2 : (update_ratings (update_ratings freshCalculator statsKd2)
      statsKd2).player_ratings = [("A", (1532 : ℝ))] := by
    rw [hstep]
    have h : (update_ratings ⟨32, 1500, [("A", (1516 : ℝ))]⟩
        statsKd2).player_ratings =
        [("A", (1516 : ℝ) + 32 * (min (((2 : ℚ) : ℝ) / 2) 1 - 1 / 2))] :=
      update_ratings_single_state 32 1500 1516 "A" 2 0 0
    rw [h, harith]
    norm_num
  rw [h1, h2]
  simp
